import Mathlib

/-!
# Verification of the UOT model-acquisition and translation-routing core

Shallow embedding of `uot.py` (Universal Offline Translator). Python strings
are modelled as `List Char`; the filesystem, network and the argostranslate
runtime are modelled as explicit inputs/state. Each definition mirrors the
source function of the same name.
-/

namespace UOT

/-- Convert a string literal to the `List Char` representation used throughout. -/
def chars (s : String) : List Char := s.data

/-- Python `str.split(sep)` for a single-character separator: splits at every
occurrence, keeping empty pieces (`"a__b".split("_") == ["a","","b"]`,
`"".split("_") == [""]`). -/
def splitOnChar (sep : Char) : List Char → List (List Char)
  | [] => [[]]
  | c :: rest =>
    let r := splitOnChar sep rest
    if c = sep then
      [] :: r
    else
      match r with
      | [] => [[c]]
      | h :: t => (c :: h) :: t

/-- Worker for `replaceList`: scans left to right; `skip` counts characters of
an already-replaced occurrence still to be consumed. -/
def replaceGo (pat rep : List Char) (skip : Nat) : List Char → List Char
  | [] => []
  | c :: rest =>
    match skip with
    | s + 1 => replaceGo pat rep s rest
    | 0 =>
      if pat.isPrefixOf (c :: rest) then
        rep ++ replaceGo pat rep (pat.length - 1) rest
      else
        c :: replaceGo pat rep 0 rest

/-- Python `str.replace(pat, rep)` for a non-empty pattern: replaces
non-overlapping occurrences left to right. (The empty-pattern case, which
Python treats specially, never occurs in the source.) -/
def replaceList (pat rep : List Char) (l : List Char) : List Char :=
  if pat.isEmpty then l else replaceGo pat rep 0 l

/-- `pathlib.Path.stem` for the names at hand: the name with everything from
its last `.` onwards removed (the name itself if it has no `.`). -/
def stem (name : List Char) : List Char :=
  match name.reverse.dropWhile (fun c => c ≠ '.') with
  | [] => name
  | _ :: rest => rest.reverse

/-- A language code / filename fragment. -/
abbrev Code := List Char

/-- Exit of the process with a status code and a diagnostic message
(`sys.exit(1)` after a `print(..., file=sys.stderr)`). -/
structure ExitErr where
  code : Nat
  msg : List Char
deriving DecidableEq, Repr

/-- The pair-extraction loop body of `detect_available_languages`
(uot.py lines 143-154): for each `*.argosmodel` file whose stem starts with
`translate-`, split the stem on `_`; `parts[0]` with the `translate-` prefix
removed is stored as the OUTPUT language and the part of `parts[1]` before
the first `-` as the INPUT language. -/
def detectPairsFromFiles (model_files : List (List Char)) : List (Code × Code) :=
  model_files.flatMap (fun model_file =>
    let name := stem model_file
    if (chars "translate-").isPrefixOf name then
      let parts := splitOnChar '_' name
      if 2 ≤ parts.length then
        let output_lang := replaceList (chars "translate-") [] (parts.headD [])
        let input_lang := (splitOnChar '-' (parts.getD 1 [])).headD []
        [(input_lang, output_lang)]
      else []
    else [])

/-- `detect_available_languages` (uot.py lines 130-155). `dirExists` models
`models_dir.exists()`; `dirFiles` is the directory listing, from which the
glob `*.argosmodel` keeps the files with that suffix. -/
def detect_available_languages (dirExists : Bool) (dirFiles : List (List Char)) :
    Except ExitErr (List (Code × Code)) :=
  if !dirExists then
    .error ⟨1, chars "[ERROR] Models directory 'models' not found."⟩
  else
    let model_files := dirFiles.filter (fun f => (chars ".argosmodel").isSuffixOf f)
    if model_files.isEmpty then
      .error ⟨1, chars "[ERROR] No model files found in 'models'."⟩
    else
      .ok (detectPairsFromFiles model_files)

/-- A resolved translation capability, bound to its (from, to) codes
(opaque `translation` object of argostranslate). -/
abbrev Path := Code × Code

/-- Process-global mutable state of uot.py: the argostranslate runtime
(installed languages and the translation capabilities their objects carry),
the `@lru_cache` snapshot of `get_installed_languages`, and the module-level
`LANGUAGE_CACHE` dict keyed by the `f"{from_code}_{to_code}"` string. -/
structure St where
  runtimeInstalled : List Code
  runtimeCaps : List (Code × Code)
  lruSnapshot : Option (List Code × List (Code × Code))
  langCache : List (List Char × Path)
deriving DecidableEq, Repr

/-- `get_installed_languages` (uot.py lines 125-128): memoized by
`@lru_cache(maxsize=1)`; returns the cached snapshot if present, otherwise
queries the runtime and stores the result. -/
def get_installed_languages (st : St) : (List Code × List (Code × Code)) × St :=
  match st.lruSnapshot with
  | some snap => (snap, st)
  | none =>
    ((st.runtimeInstalled, st.runtimeCaps),
     { st with lruSnapshot := some (st.runtimeInstalled, st.runtimeCaps) })

/-- A local model package file as `install_model` sees it: whether the path
exists, whether `argostranslate.package.install_from_path` succeeds on it,
and the languages/capabilities it adds to the runtime when it does. -/
structure Package where
  fileExists : Bool
  installOk : Bool
  langs : List Code
  caps : List (Code × Code)
deriving DecidableEq, Repr

/-- `install_model` (uot.py lines 157-171): a missing file is a non-fatal skip
(returns false); on a successful install the runtime gains the package's
languages and `get_installed_languages.cache_clear()` empties the lru
snapshot — `LANGUAGE_CACHE` is not touched; an install exception is caught
and reported (returns false) without clearing any cache. -/
def install_model (pkg : Package) (st : St) : Bool × St :=
  if !pkg.fileExists then
    (false, st)
  else if pkg.installOk then
    (true,
     { st with
        runtimeInstalled := st.runtimeInstalled ++ pkg.langs
        runtimeCaps := st.runtimeCaps ++ pkg.caps
        lruSnapshot := none })
  else
    (false, st)

/-- `clean_model_cache` (uot.py lines 209-233): wipes the argostranslate
package data directory (so the runtime has no installed languages left) and
calls `get_installed_languages.cache_clear()` — `LANGUAGE_CACHE` is not
touched. -/
def clean_model_cache (st : St) : St :=
  { st with
      runtimeInstalled := []
      runtimeCaps := []
      lruSnapshot := none }

/-- Errors raised as `TranslatorError` by `find_translation`. -/
inductive TErr where
  | notInstalled (code : Code)
  | noPath (fromCode toCode : Code)
deriving DecidableEq, Repr

/-- Association-list lookup (Python dict `in` / `[]`). -/
def lookup (key : List Char) : List (List Char × Path) → Option Path
  | [] => none
  | (k, v) :: rest => if k = key then some v else lookup key rest

/-- `find_translation` (uot.py lines 366-394): a `LANGUAGE_CACHE` hit is
returned immediately; otherwise both codes are resolved against the
memoized installed-language snapshot, `TranslatorError` is raised if either
is absent or no capability connects them, and a fresh resolution is cached
under the key `f"{from_code}_{to_code}"`. -/
def find_translation (fromCode toCode : Code) (st : St) : Except TErr Path × St :=
  let cache_key := fromCode ++ '_' :: toCode
  match lookup cache_key st.langCache with
  | some t => (.ok t, st)
  | none =>
    let (installed, st₁) := get_installed_languages st
    let from_lang := installed.1.find? (fun lang => lang = fromCode)
    let to_lang := installed.1.find? (fun lang => lang = toCode)
    match from_lang with
    | none => (.error (.notInstalled fromCode), st₁)
    | some _ =>
      match to_lang with
      | none => (.error (.notInstalled toCode), st₁)
      | some _ =>
        if (fromCode, toCode) ∈ installed.2 then
          (.ok (fromCode, toCode),
           { st₁ with langCache := (cache_key, (fromCode, toCode)) :: st₁.langCache })
        else
          (.error (.noPath fromCode toCode), st₁)

/-- The success-count aggregation of `install_models_from_local_dir`
(uot.py lines 187-197): every `install_model` call is wrapped so a per-file
failure only keeps that file out of the `installed` count; a linearization of
the thread pool (the count and the final runtime state do not depend on
completion order). -/
def installAllGo : List Package → St → Nat × St
  | [], st => (0, st)
  | pkg :: rest, st =>
    let (ok, st₁) := install_model pkg st
    let (n, st₂) := installAllGo rest st₁
    (n + (if ok then 1 else 0), st₂)

/-- `install_models_from_local_dir` (uot.py lines 173-203): exits with an
error if the directory is absent, if it holds no `*.argosmodel` file, or if
zero files install; otherwise returns the success count. `listing` pairs
each directory-entry name with the package behavior behind it. -/
def install_models_from_local_dir (dirExists : Bool)
    (listing : List (List Char × Package)) (st : St) :
    Except ExitErr (Nat × St) :=
  if !dirExists then
    .error ⟨1, chars "[ERROR] Models directory 'models' not found."⟩
  else
    let model_files := listing.filter (fun e => (chars ".argosmodel").isSuffixOf e.1)
    if model_files.isEmpty then
      .error ⟨1, chars "[ERROR] No models found in 'models' to install."⟩
    else
      let (installed, st₁) := installAllGo (model_files.map (fun e => e.2)) st
      if installed = 0 then
        .error ⟨1, chars "[ERROR] Failed to install any models."⟩
      else
        .ok (installed, st₁)

/-- One network attempt of `download_file`: HTTP 404, a transient failure
(network error, non-404 HTTP error, timeout — whether before or during the
streamed write), or a completed download of `size` bytes. -/
inductive Outcome where
  | notFound
  | transient
  | success (size : Nat)
deriving DecidableEq, Repr

/-- Result of a `download_file` run: the returned boolean, the file at the
destination path afterwards (`none` = absent, `some n` = n bytes), the
number of attempts made, and the number of backoff sleeps performed. -/
structure DlResult where
  ok : Bool
  file : Option Nat
  attempts : Nat
  sleeps : Nat
deriving DecidableEq, Repr

/-- The retry loop of `download_file` (uot.py lines 237-271), with `remaining`
attempts left and the server's responses consumed from `outcomes`:
a 404 prints an error and returns false at once (the destination file is not
opened); a completed attempt leaves the downloaded file and returns true;
a transient failure deletes whatever is at the destination and, when another
attempt remains (`attempt < retries - 1`), sleeps once before retrying. -/
def dlGo (remaining : Nat) (outcomes : List Outcome) (file : Option Nat) : DlResult :=
  match remaining, outcomes with
  | 0, _ => ⟨false, file, 0, 0⟩
  | _ + 1, [] => ⟨false, file, 0, 0⟩
  | r + 1, o :: rest =>
    match o with
    | .notFound => ⟨false, file, 1, 0⟩
    | .success n => ⟨true, some n, 1, 0⟩
    | .transient =>
      let res := dlGo r rest none
      ⟨res.ok, res.file, res.attempts + 1, res.sleeps + (if r = 0 then 0 else 1)⟩

/-- `download_file` (uot.py lines 235-272) with its default `retries = 3`
exposed as a parameter; `file₀` is what sits at the destination path when the
call starts. -/
def download_file (outcomes : List Outcome) (file₀ : Option Nat) (retries : Nat) :
    DlResult :=
  dlGo retries outcomes file₀

/-- `normalize_version` (uot.py lines 278-280): `version.replace('.', '_')`. -/
def normalize_version (version : List Char) : List Char :=
  replaceList (chars ".") (chars "_") version

/-- `generate_filename` (uot.py lines 274-276):
`f"{code}-{normalize_version(package_version)}.argosmodel"`. -/
def generate_filename (code package_version : List Char) : List Char :=
  code ++ chars "-" ++ normalize_version package_version ++ chars ".argosmodel"

/-- One entry of the remote package index as `download_model` reads it:
the optional `code` and `package_version` fields, and the server's behavior
for the package's URL (consumed by `download_file` if a download happens). -/
structure IndexItem where
  codeField : Option (List Char)
  versionField : Option (List Char)
  outcomes : List Outcome
deriving DecidableEq, Repr

/-- Result of `download_model`: the returned boolean and the URLs for which a
download request was actually issued (empty when the entry was skipped). -/
structure DmResult where
  ok : Bool
  requests : List (List Char)
  existing : List (List Char)
deriving DecidableEq, Repr

/-- `download_model` (uot.py lines 282-302): an entry missing `code` or
`package_version` is skipped, a destination file that already exists is
skipped with no request; otherwise one `download_file` call is issued for
`BASE_URL + filename` (3 retries). `existing` is the set of filenames
already present in the models directory. -/
def download_model (item : IndexItem) (existing : List (List Char)) : DmResult :=
  match item.codeField, item.versionField with
  | some code, some package_version =>
    let filename := generate_filename code package_version
    if filename ∈ existing then
      ⟨false, [], existing⟩
    else
      let res := download_file item.outcomes none 3
      ⟨res.ok, [filename], if res.ok then filename :: existing else existing⟩
  | _, _ => ⟨false, [], existing⟩

/-- Summary printed by `install_models_from_index` plus whether the final
local-install phase ran. -/
structure IndexSummary where
  totalEntries : Nat
  packagesFound : Nat
  packagesDownloaded : Nat
  packagesSkipped : Nat
  requests : List (List Char)
  ranLocalInstall : Bool
deriving DecidableEq, Repr

/-- The download loop of `install_models_from_index`: a linearization of the
bounded thread pool (counts do not depend on completion order). -/
def indexDownloadGo : List IndexItem → List (List Char) →
    Nat × List (List Char) × List (List Char)
  | [], existing => (0, [], existing)
  | item :: rest, existing =>
    let r := download_model item existing
    let (n, reqs, existing') := indexDownloadGo rest r.existing
    ((if r.ok then 1 else 0) + n, r.requests ++ reqs, existing')

/-- `install_models_from_index` (uot.py lines 304-349), after a successful
index fetch: filters the raw entries to those that are non-null and carry
both required fields, downloads the valid ones, reports
`found / downloaded / skipped = found - downloaded`, and runs the local
install phase only when at least one package was downloaded. -/
def install_models_from_index (index_data : List (Option IndexItem))
    (existing : List (List Char)) : IndexSummary :=
  let valid_entries := (index_data.filterMap id).filter
    (fun item => item.codeField.isSome && item.versionField.isSome)
  let packages_found := valid_entries.length
  let (packages_downloaded, requests, _) := indexDownloadGo valid_entries existing
  { totalEntries := index_data.length
    packagesFound := packages_found
    packagesDownloaded := packages_downloaded
    packagesSkipped := packages_found - packages_downloaded
    requests := requests
    ranLocalInstall := decide (0 < packages_downloaded) }

/-- Observable outcome of the translation route of `main`:
whether the bulk local install ran, which `[TIP]` lines were printed
(`tipRunIm` = line 478's "run 'uot.py -im'" after an invalid pair,
`tipModelIm` = line 526's "download a specific model ... with 'uot.py -im'"),
the exit status if the process exited, the translation path used on success,
and the final global state. -/
structure RouteResult where
  bulkInstall : Bool
  tipRunIm : Bool
  tipModelIm : Bool
  exitCode : Option Nat
  translated : Option Path
  finalSt : St
deriving DecidableEq, Repr

/-- The tail of the translation route (uot.py lines 497-527): the second
`get_installed_languages()` read, `find_translation`, and the error
reporting of the `TranslatorError` handler. -/
def mainRouteResolve (il ol : Code) (dirExists : Bool) (dirFiles : List (List Char))
    (bulk : Bool) (st : St) : RouteResult :=
  let st₁ := (get_installed_languages st).2
  match find_translation il ol st₁ with
  | (.ok t, st₂) => ⟨bulk, false, false, none, some t, st₂⟩
  | (.error _, st₂) =>
    let tip := match detect_available_languages dirExists dirFiles with
      | .ok avail2 => decide ((il, ol) ∈ avail2)
      | .error _ => false
    ⟨bulk, false, tip, some 1, none, st₂⟩

/-- The translation route of `main` (uot.py lines 474-527), entered with the
requested codes `il`/`ol` and non-empty input text: validates the pair
against `detect_available_languages`, bulk-installs the local models iff
`get_installed_languages()` is empty, resolves via `find_translation`, and on
a `TranslatorError` re-derives the available pairs to decide whether to print
the install-from-index tip. (Lines 500-504 compute `missing_languages`,
which the source never reads afterwards.) -/
def mainRoute (il ol : Code) (dirExists : Bool) (dirFiles : List (List Char))
    (listing : List (List Char × Package)) (st : St) : RouteResult :=
  match detect_available_languages dirExists dirFiles with
  | .error e =>
    ⟨false, false, false, some e.code, none, st⟩
  | .ok available_languages =>
    if (il, ol) ∉ available_languages then
      ⟨false, true, false, some 1, none, st⟩
    else
      let installed := (get_installed_languages st).1
      let st₁ := (get_installed_languages st).2
      if installed.1.isEmpty then
        match install_models_from_local_dir dirExists listing st₁ with
        | .error e => ⟨true, false, false, some e.code, none, st₁⟩
        | .ok (_, st₂) => mainRouteResolve il ol dirExists dirFiles true st₂
      else
        mainRouteResolve il ol dirExists dirFiles false st₁

/-! ## Helper lemmas -/

/-- Replacing a single-character pattern by a single character is a pointwise
map over the string. -/
lemma replaceGo_single (p q : Char) (l : List Char) :
    replaceGo [p] [q] 0 l = l.map (fun c => if c = p then q else c) := by
  induction l with
  | nil => rfl
  | cons c rest ih =>
    by_cases h : c = p
    · subst h
      simp [replaceGo, List.isPrefixOf, ih]
    · simp [replaceGo, List.isPrefixOf, ih, h, Ne.symm h]

/-- `normalize_version` replaces every `.` by `_` and changes nothing else. -/
lemma normalize_version_map (version : List Char) :
    normalize_version version = version.map (fun c => if c = '.' then '_' else c) := by
  have h1 : chars "." = ['.'] := rfl
  have h2 : chars "_" = ['_'] := rfl
  rw [normalize_version, h1, h2, replaceList]
  simp [replaceGo_single]

/-! ## Claims -/

/-- C9: `generate_filename(code, version)` equals
`code ++ "-" ++ (version with every '.' replaced by '_') ++ ".argosmodel"`;
in particular `generate_filename "en_sk" "1.9" = "en_sk-1_9.argosmodel"`. -/
theorem generate_filename_deterministic :
    (∀ code version : List Char,
      generate_filename code version =
        code ++ chars "-" ++ version.map (fun c => if c = '.' then '_' else c)
          ++ chars ".argosmodel")
    ∧ generate_filename (chars "en_sk") (chars "1.9") = chars "en_sk-1_9.argosmodel" :=
  ⟨fun code version => by rw [generate_filename, normalize_version_map], rfl⟩

/-- C1: the code violates the claim — for a store containing only
`translate-en_sk-1_0.argosmodel` (naming convention
`translate-<input>_<output>-<version>`, here input `en`, output `sk`),
`detect_available_languages` returns the SWAPPED pair `(sk, en)`:
the encoded pair `(en, sk)` is not in the result, so it would be rejected,
while `(sk, en)` would be accepted. -/
theorem detect_swaps_encoded_pair :
    detect_available_languages true [chars "translate-en_sk-1_0.argosmodel"] =
      .ok [(chars "sk", chars "en")]
    ∧ (chars "en", chars "sk") ∉ detectPairsFromFiles [chars "translate-en_sk-1_0.argosmodel"]
    ∧ (chars "sk", chars "en") ∈ detectPairsFromFiles [chars "translate-en_sk-1_0.argosmodel"] :=
  ⟨by rfl, by decide, by decide⟩

/-- C10: when the models directory exists but holds no `*.argosmodel` file,
both `detect_available_languages` and `install_models_from_local_dir`
terminate the process with exit status 1 and an `[ERROR]`-prefixed message —
the same outcome as for an absent directory. -/
theorem empty_store_is_fatal (dirFiles : List (List Char))
    (listing : List (List Char × Package)) (st : St)
    (h₁ : ∀ f ∈ dirFiles, (chars ".argosmodel").isSuffixOf f = false)
    (h₂ : ∀ e ∈ listing, (chars ".argosmodel").isSuffixOf e.1 = false) :
    (∃ m₁, detect_available_languages true dirFiles = .error ⟨1, m₁⟩
      ∧ (chars "[ERROR]").isPrefixOf m₁ = true)
    ∧ (∃ m₂, install_models_from_local_dir true listing st = .error ⟨1, m₂⟩
      ∧ (chars "[ERROR]").isPrefixOf m₂ = true) := by
  have hf₁ : dirFiles.filter (fun f => (chars ".argosmodel").isSuffixOf f) = [] := by
    apply List.filter_eq_nil_iff.mpr
    intro f hf
    simp [h₁ f hf]
  have hf₂ : listing.filter (fun e => (chars ".argosmodel").isSuffixOf e.1) = [] := by
    apply List.filter_eq_nil_iff.mpr
    intro e he
    simp [h₂ e he]
  constructor
  · refine ⟨chars "[ERROR] No model files found in 'models'.", ?_, by decide⟩
    rw [detect_available_languages]
    simp [hf₁]
  · refine ⟨chars "[ERROR] No models found in 'models' to install.", ?_, by decide⟩
    rw [install_models_from_local_dir]
    simp [hf₂]

/-- C10 witness: an existing directory whose listing holds a single
non-package file. -/
theorem empty_store_is_fatal_witness :
    (∃ m₁, detect_available_languages true [chars "readme.txt"] = .error ⟨1, m₁⟩
      ∧ (chars "[ERROR]").isPrefixOf m₁ = true)
    ∧ (∃ m₂, install_models_from_local_dir true [] ⟨[], [], none, []⟩ = .error ⟨1, m₂⟩
      ∧ (chars "[ERROR]").isPrefixOf m₂ = true) :=
  empty_store_is_fatal [chars "readme.txt"] [] ⟨[], [], none, []⟩
    (by decide) (by simp)

/-- C3: when the server answers attempt `k + 1` with HTTP 404 (after `k`
transient failures), `download_file` returns false, makes no further attempt
(the 404 response is the last one consumed), and leaves no file at the
destination path. -/
theorem download_404_definitive (k retries : Nat) (rest : List Outcome)
    (h : k < retries) :
    download_file (List.replicate k .transient ++ .notFound :: rest) none retries =
      ⟨false, none, k + 1, k⟩ := by
  induction k generalizing retries with
  | zero =>
    obtain ⟨r, rfl⟩ : ∃ r, retries = r + 1 := ⟨retries - 1, by omega⟩
    rfl
  | succ k ih =>
    obtain ⟨r, rfl⟩ : ∃ r, retries = r + 1 := ⟨retries - 1, by omega⟩
    have hr : k < r := by omega
    have hr0 : ¬ r = 0 := by omega
    have hstep := ih r hr
    rw [download_file] at hstep
    rw [download_file, List.replicate_succ, List.cons_append, dlGo]
    simp [hstep, hr0]

/-- C3 witness: 404 on the second of three attempts. -/
theorem download_404_definitive_witness :
    download_file (List.replicate 1 .transient ++ .notFound :: []) none 3 =
      ⟨false, none, 2, 1⟩ :=
  download_404_definitive 1 3 [] (by decide)

/-- C4: a transient failure deletes whatever is at the destination before the
retry runs and sleeps one backoff interval iff another attempt remains; at
most `retries` attempts are ever made; and when every attempt fails
transiently, `download_file` returns false (no exception), with no file left
and `retries - 1` sleeps performed between the `retries` attempts. -/
theorem download_transient_retry :
    (∀ (r : Nat) (rest : List Outcome) (file₀ : Option Nat),
      dlGo (r + 1) (.transient :: rest) file₀ =
        ⟨(dlGo r rest none).ok, (dlGo r rest none).file,
         (dlGo r rest none).attempts + 1,
         (dlGo r rest none).sleeps + (if r = 0 then 0 else 1)⟩)
    ∧ (∀ (retries : Nat) (outcomes : List Outcome) (file₀ : Option Nat),
      (download_file outcomes file₀ retries).attempts ≤ retries)
    ∧ (∀ (retries : Nat) (file₀ : Option Nat),
      download_file (List.replicate retries .transient) file₀ retries =
        ⟨false, if retries = 0 then file₀ else none, retries, retries - 1⟩) := by
  refine ⟨fun r rest file₀ => rfl, ?_, ?_⟩
  · intro retries
    induction retries with
    | zero => intro outcomes file₀; simp [download_file, dlGo]
    | succ r ih =>
      intro outcomes file₀
      match outcomes with
      | [] => simp [download_file, dlGo]
      | o :: rest =>
        match o with
        | .notFound => simp [download_file, dlGo]
        | .success n => simp [download_file, dlGo]
        | .transient =>
          have := ih rest none
          rw [download_file] at this
          rw [download_file, dlGo]
          simp only
          omega
  · intro retries
    induction retries with
    | zero => intro file₀; rfl
    | succ r ih =>
      intro file₀
      have hstep := ih none
      rw [download_file] at hstep
      rw [download_file, List.replicate_succ, dlGo]
      simp only [hstep]
      rcases Nat.eq_zero_or_pos r with hr | hr
      · subst hr; rfl
      · have h1 : ¬ r = 0 := by omega
        have h2 : ¬ r + 1 = 0 := by omega
        simp [h1, h2]
        omega

/-- The boolean returned by `install_model` depends only on the package. -/
lemma install_model_fst (pkg : Package) (st : St) :
    (install_model pkg st).1 = (pkg.fileExists && pkg.installOk) := by
  cases h1 : pkg.fileExists <;> cases h2 : pkg.installOk <;>
    simp [install_model, h1, h2]

/-- The batch success count is the number of packages whose file exists and
whose install succeeds, independent of the threaded state. -/
lemma installAllGo_count (pkgs : List Package) (st : St) :
    (installAllGo pkgs st).1 = pkgs.countP (fun p => p.fileExists && p.installOk) := by
  induction pkgs generalizing st with
  | nil => simp [installAllGo]
  | cons p rest ih =>
    cases h : (p.fileExists && p.installOk) with
    | false => simp [installAllGo, List.countP_cons, ih, install_model_fst, h]
    | true => simp [installAllGo, List.countP_cons, ih, install_model_fst, h]

/-- A non-empty local batch install is fatal exactly when zero files install
successfully; otherwise it returns the success count. -/
lemma install_local_cases (listing : List (List Char × Package)) (st : St)
    (hne : listing.filter (fun e => (chars ".argosmodel").isSuffixOf e.1) ≠ []) :
    ((((listing.filter (fun e => (chars ".argosmodel").isSuffixOf e.1)).map
        (fun e => e.2)).countP (fun p => p.fileExists && p.installOk) = 0 →
      install_models_from_local_dir true listing st =
        .error ⟨1, chars "[ERROR] Failed to install any models."⟩)
    ∧ (((listing.filter (fun e => (chars ".argosmodel").isSuffixOf e.1)).map
        (fun e => e.2)).countP (fun p => p.fileExists && p.installOk) ≠ 0 →
      ∃ st', install_models_from_local_dir true listing st =
        .ok ((((listing.filter (fun e => (chars ".argosmodel").isSuffixOf e.1)).map
          (fun e => e.2)).countP (fun p => p.fileExists && p.installOk)), st'))) := by
  have hcond : (listing.filter
      (fun e => (chars ".argosmodel").isSuffixOf e.1)).isEmpty = false := by
    cases h : (listing.filter (fun e => (chars ".argosmodel").isSuffixOf e.1)).isEmpty
    · rfl
    · exact absurd (List.isEmpty_iff.mp h) hne
  rw [install_models_from_local_dir]
  simp only [hcond, Bool.not_true, Bool.false_eq_true, if_false]
  rw [← installAllGo_count ((listing.filter
      (fun e => (chars ".argosmodel").isSuffixOf e.1)).map (fun e => e.2)) st]
  constructor
  · intro hzero
    simp [hzero]
  · intro hpos
    refine ⟨(installAllGo ((listing.filter
        (fun e => (chars ".argosmodel").isSuffixOf e.1)).map (fun e => e.2)) st).2, ?_⟩
    simp [hpos]

/-- C5: in a local batch install of `N = pre.length + 1 + post.length` package
files where exactly the one file `bad` fails (missing or install error) and
the others succeed, the failure is absorbed at its item boundary: the run
reports `installed = N - 1` and succeeds overall whenever `N - 1 > 0`, and
exits fatally (status 1, `[ERROR]` message) exactly when zero files install. -/
theorem local_install_partial_failure
    (pre post : List (List Char × Package)) (bad : List Char × Package) (st : St)
    (hgood : ∀ e ∈ pre ++ post, (e.2.fileExists && e.2.installOk) = true)
    (hbad : (bad.2.fileExists && bad.2.installOk) = false)
    (hsuf : ∀ e ∈ pre ++ bad :: post, (chars ".argosmodel").isSuffixOf e.1 = true) :
    (0 < pre.length + post.length →
      ∃ st', install_models_from_local_dir true (pre ++ bad :: post) st =
        .ok (pre.length + post.length, st'))
    ∧ (pre.length + post.length = 0 →
      ∃ m, install_models_from_local_dir true (pre ++ bad :: post) st = .error ⟨1, m⟩
        ∧ (chars "[ERROR]").isPrefixOf m = true) := by
  have hfilter : (pre ++ bad :: post).filter
      (fun e => (chars ".argosmodel").isSuffixOf e.1) = pre ++ bad :: post := by
    apply List.filter_eq_self.mpr
    intro e he
    exact hsuf e he
  have hcount : ((pre ++ bad :: post).map (fun e => e.2)).countP
      (fun p => p.fileExists && p.installOk) = pre.length + post.length := by
    rw [List.countP_map]
    rw [List.countP_append, List.countP_cons]
    have hpre : pre.countP ((fun p => p.fileExists && p.installOk) ∘ (fun e => e.2)) =
        pre.length := by
      apply List.countP_eq_length.mpr
      intro e he
      simpa using hgood e (List.mem_append_left _ he)
    have hpost : post.countP ((fun p => p.fileExists && p.installOk) ∘ (fun e => e.2)) =
        post.length := by
      apply List.countP_eq_length.mpr
      intro e he
      simpa using hgood e (List.mem_append_right _ he)
    simp [hpre, hpost, Function.comp, hbad]
  have hne : (pre ++ bad :: post).filter
      (fun e => (chars ".argosmodel").isSuffixOf e.1) ≠ [] := by
    rw [hfilter]; simp
  have hmain := install_local_cases (pre ++ bad :: post) st hne
  rw [hfilter, hcount] at hmain
  constructor
  · intro hpos
    exact hmain.2 (by omega)
  · intro hzero
    refine ⟨chars "[ERROR] Failed to install any models.", hmain.1 hzero, by decide⟩

/-- C5 witness: three files of which the middle one is corrupt — two install,
the batch succeeds with `installed = 2`. -/
theorem local_install_partial_failure_witness :
    ∃ st', install_models_from_local_dir true
      [(chars "a.argosmodel", ⟨true, true, [chars "a"], []⟩),
       (chars "b.argosmodel", ⟨true, false, [], []⟩),
       (chars "c.argosmodel", ⟨true, true, [chars "c"], []⟩)]
      ⟨[], [], none, []⟩ = .ok (2, st') :=
  (local_install_partial_failure
    [(chars "a.argosmodel", ⟨true, true, [chars "a"], []⟩)]
    [(chars "c.argosmodel", ⟨true, true, [chars "c"], []⟩)]
    (chars "b.argosmodel", ⟨true, false, [], []⟩)
    ⟨[], [], none, []⟩ (by decide) (by decide) (by decide)).1 (by decide)

/-- C2 counterexample: the claim is false on the code. Start with `en` and
`sk` installed and an `en → sk` capability, resolve once (caching the path in
`LANGUAGE_CACHE`), then run `clean_model_cache`, which empties the runtime.
The translation-path cache is NOT invalidated, and `find_translation` still
serves the cached `en → sk` path although neither language is installed any
more. -/
theorem cache_invalidation_counterexample :
    (find_translation (chars "en") (chars "sk")
        (clean_model_cache
          (find_translation (chars "en") (chars "sk")
            ⟨[chars "en", chars "sk"], [(chars "en", chars "sk")], none, []⟩).2)).1 =
      .ok (chars "en", chars "sk")
    ∧ (clean_model_cache
        (find_translation (chars "en") (chars "sk")
          ⟨[chars "en", chars "sk"], [(chars "en", chars "sk")], none, []⟩).2).runtimeInstalled
        = []
    ∧ (clean_model_cache
        (find_translation (chars "en") (chars "sk")
          ⟨[chars "en", chars "sk"], [(chars "en", chars "sk")], none, []⟩).2).langCache
        ≠ [] :=
  ⟨by rfl, by rfl, by decide⟩

/-- C2 amended: after every successful `install_model` and after every
`clean_model_cache`, only the installed-language snapshot
(`get_installed_languages`'s lru cache) is invalidated; the translation-path
cache `LANGUAGE_CACHE` is left untouched by both operations, so a previously
cached translation path can still be served for a pair whose languages are
no longer installed. -/
theorem cache_invalidation_amended (pkg : Package) (st : St)
    (h₁ : pkg.fileExists = true) (h₂ : pkg.installOk = true) :
    ((clean_model_cache st).lruSnapshot = none
      ∧ (clean_model_cache st).langCache = st.langCache)
    ∧ ((install_model pkg st).1 = true
      ∧ (install_model pkg st).2.lruSnapshot = none
      ∧ (install_model pkg st).2.langCache = st.langCache) := by
  refine ⟨⟨rfl, rfl⟩, ?_⟩
  simp [install_model, h₁, h₂]

/-- C2 witness: a concrete successful install. -/
theorem cache_invalidation_amended_witness :
    ((clean_model_cache ⟨[], [], some ([], []), [(chars "a_b", (chars "a", chars "b"))]⟩).lruSnapshot = none
      ∧ (clean_model_cache ⟨[], [], some ([], []), [(chars "a_b", (chars "a", chars "b"))]⟩).langCache
        = [(chars "a_b", (chars "a", chars "b"))])
    ∧ ((install_model ⟨true, true, [chars "en"], []⟩
          ⟨[], [], some ([], []), [(chars "a_b", (chars "a", chars "b"))]⟩).1 = true
      ∧ (install_model ⟨true, true, [chars "en"], []⟩
          ⟨[], [], some ([], []), [(chars "a_b", (chars "a", chars "b"))]⟩).2.lruSnapshot = none
      ∧ (install_model ⟨true, true, [chars "en"], []⟩
          ⟨[], [], some ([], []), [(chars "a_b", (chars "a", chars "b"))]⟩).2.langCache
        = [(chars "a_b", (chars "a", chars "b"))]) :=
  cache_invalidation_amended ⟨true, true, [chars "en"], []⟩
    ⟨[], [], some ([], []), [(chars "a_b", (chars "a", chars "b"))]⟩ rfl rfl

/-- A successful `find_translation` leaves the returned path in
`LANGUAGE_CACHE` under the pair's key. -/
lemma find_translation_ok_cached (fromCode toCode : Code) (st st₁ : St) (p : Path)
    (h : find_translation fromCode toCode st = (.ok p, st₁)) :
    lookup (fromCode ++ '_' :: toCode) st₁.langCache = some p := by
  rw [find_translation] at h
  rcases hl : lookup (fromCode ++ '_' :: toCode) st.langCache with _ | t
  · rw [hl] at h
    simp only at h
    rcases hf : (get_installed_languages st).1.1.find?
        (fun lang => lang = fromCode) with _ | fl
    · rw [hf] at h; simp at h
    · rw [hf] at h
      rcases ht : (get_installed_languages st).1.1.find?
          (fun lang => lang = toCode) with _ | tl
      · rw [ht] at h; simp at h
      · rw [ht] at h
        by_cases hm : (fromCode, toCode) ∈ (get_installed_languages st).1.2
        · rw [if_pos hm] at h
          simp only [Prod.mk.injEq, Except.ok.injEq] at h
          rw [← h.2]
          simp [lookup, h.1]
        · rw [if_neg hm] at h; simp at h
  · rw [hl] at h
    simp only [Prod.mk.injEq, Except.ok.injEq] at h
    rw [← h.2, ← h.1]
    exact hl

/-- C6: `find_translation` is idempotent per pair — once a call has resolved
`(fromCode, toCode)` to a path `p`, every later call with the same pair
returns the same cached `p` and leaves the state unchanged, without
re-resolving: the result stands whatever the runtime installed set, its
capabilities, or the lru snapshot have become in the meantime. -/
theorem find_translation_idempotent (fromCode toCode : Code) (st st₁ : St) (p : Path)
    (h : find_translation fromCode toCode st = (.ok p, st₁)) :
    find_translation fromCode toCode st₁ = (.ok p, st₁)
    ∧ ∀ (inst : List Code) (caps : List (Code × Code))
        (snap : Option (List Code × List (Code × Code))),
        find_translation fromCode toCode (St.mk inst caps snap st₁.langCache) =
          (.ok p, St.mk inst caps snap st₁.langCache) := by
  have hc := find_translation_ok_cached fromCode toCode st st₁ p h
  constructor
  · rw [find_translation, hc]
  · intro inst caps snap
    have hc' : lookup (fromCode ++ '_' :: toCode)
        (St.mk inst caps snap st₁.langCache).langCache = some p := hc
    rw [find_translation, hc']

/-- C6 witness: a concrete first resolution followed by a cache hit. -/
theorem find_translation_idempotent_witness :
    find_translation (chars "en") (chars "sk")
      ⟨[chars "en", chars "sk"], [(chars "en", chars "sk")],
        some ([chars "en", chars "sk"], [(chars "en", chars "sk")]),
        [(chars "en_sk", (chars "en", chars "sk"))]⟩ =
    (.ok (chars "en", chars "sk"),
      ⟨[chars "en", chars "sk"], [(chars "en", chars "sk")],
        some ([chars "en", chars "sk"], [(chars "en", chars "sk")]),
        [(chars "en_sk", (chars "en", chars "sk"))]⟩) :=
  (find_translation_idempotent (chars "en") (chars "sk")
    ⟨[chars "en", chars "sk"], [(chars "en", chars "sk")], none, []⟩
    ⟨[chars "en", chars "sk"], [(chars "en", chars "sk")],
      some ([chars "en", chars "sk"], [(chars "en", chars "sk")]),
      [(chars "en_sk", (chars "en", chars "sk"))]⟩
    (chars "en", chars "sk") (by rfl)).1

/-- C8: an index-driven install whose only valid entry's computed destination
file already exists reports `found = 1`, `downloaded = 0`,
`skipped (already exist) = 1`, issues no download request, and does not run
the local install phase. -/
theorem index_skip_existing (item : IndexItem) (code version : List Char)
    (existing : List (List Char))
    (h₁ : item.codeField = some code) (h₂ : item.versionField = some version)
    (h₃ : generate_filename code version ∈ existing) :
    install_models_from_index [some item] existing = ⟨1, 1, 0, 1, [], false⟩ := by
  rw [install_models_from_index]
  simp [indexDownloadGo, download_model, h₁, h₂, h₃]

/-- C8 witness: the entry `(en_sk, 1.0)` with `en_sk-1_0.argosmodel` already
on disk. -/
theorem index_skip_existing_witness :
    install_models_from_index [some ⟨some (chars "en_sk"), some (chars "1.0"), []⟩]
      [chars "en_sk-1_0.argosmodel"] = ⟨1, 1, 0, 1, [], false⟩ :=
  index_skip_existing ⟨some (chars "en_sk"), some (chars "1.0"), []⟩
    (chars "en_sk") (chars "1.0") [chars "en_sk-1_0.argosmodel"]
    rfl rfl (by decide)

/-- `get_installed_languages` never touches `LANGUAGE_CACHE`. -/
lemma get_installed_snd_langCache (st : St) :
    (get_installed_languages st).2.langCache = st.langCache := by
  rcases h : st.lruSnapshot with _ | snap <;> simp [get_installed_languages, h]

/-- A second `get_installed_languages` call hits the freshly stored snapshot:
same value, same state. -/
lemma get_installed_idem (st : St) :
    get_installed_languages (get_installed_languages st).2 =
      ((get_installed_languages st).1, (get_installed_languages st).2) := by
  rcases h : st.lruSnapshot with _ | snap <;> simp [get_installed_languages, h]

/-- On a cache miss, `find_translation` raises `TranslatorError` for an input
code that is not in the installed snapshot. -/
lemma find_translation_not_installed (il ol : Code) (st : St)
    (hmiss : lookup (il ++ '_' :: ol) st.langCache = none)
    (hni : il ∉ (get_installed_languages st).1.1) :
    find_translation il ol st =
      (.error (.notInstalled il), (get_installed_languages st).2) := by
  rw [find_translation, hmiss]
  have hf : (get_installed_languages st).1.1.find? (fun lang => lang = il) = none := by
    rw [List.find?_eq_none]
    intro x hx
    simp only [decide_eq_true_eq]
    intro he
    exact hni (he ▸ hx)
  simp [hf]

/-- The bulk local install runs iff the requested pair passed validation and
`get_installed_languages()` returned the empty set. -/
lemma route_bulk_iff_aux (il ol : Code) (dirExists : Bool)
    (dirFiles : List (List Char)) (listing : List (List Char × Package)) (st : St) :
    ((mainRoute il ol dirExists dirFiles listing st).bulkInstall = true ↔
      ((∃ avail, detect_available_languages dirExists dirFiles = .ok avail
          ∧ (il, ol) ∈ avail)
        ∧ (get_installed_languages st).1.1 = [])) := by
  rw [mainRoute]
  rcases hdet : detect_available_languages dirExists dirFiles with e | avail
  · simp [hdet]
  · simp only
    by_cases hmem : (il, ol) ∈ avail
    · rw [if_neg (by simp [hmem])]
      by_cases hie : (get_installed_languages st).1.1 = []
      · have hie2 : (get_installed_languages st).1.1.isEmpty = true := by
          simp [hie]
        rw [if_pos hie2]
        rcases hinst : install_models_from_local_dir dirExists listing
            (get_installed_languages st).2 with e2 | ok2
        · simp [hmem, hie]
        · simp only
          constructor
          · intro _
            exact ⟨⟨avail, rfl, hmem⟩, hie⟩
          · intro _
            rw [mainRouteResolve]
            rcases hft : find_translation il ol (get_installed_languages ok2.2).2
                with ⟨r, st₂⟩
            cases r with
            | error e => rfl
            | ok t => rfl
      · have hie2 : (get_installed_languages st).1.1.isEmpty = false := by
          cases h : (get_installed_languages st).1.1.isEmpty
          · rfl
          · exact absurd (List.isEmpty_iff.mp h) hie
        rw [hie2]
        simp only [Bool.false_eq_true, if_false]
        rw [mainRouteResolve]
        rcases hft : find_translation il ol
            (get_installed_languages (get_installed_languages st).2).2 with ⟨r, st₂⟩
        constructor
        · intro hb
          cases r with
          | error e => simp at hb
          | ok t => simp at hb
        · intro hcon
          exact absurd hcon.2 hie
    · rw [if_pos (by simp [hmem])]
      simp [hmem]

/-- A validated pair whose input language is missing from a non-empty
installed set skips the bulk install and surfaces the install-from-index
tip before exiting. -/
lemma route_tip_aux (il ol : Code) (dirExists : Bool)
    (dirFiles : List (List Char)) (listing : List (List Char × Package)) (st : St)
    (avail : List (Code × Code))
    (hdet : detect_available_languages dirExists dirFiles = .ok avail)
    (hmem : (il, ol) ∈ avail)
    (hne : (get_installed_languages st).1.1 ≠ [])
    (hni : il ∉ (get_installed_languages st).1.1)
    (hmiss : lookup (il ++ '_' :: ol) st.langCache = none) :
    (mainRoute il ol dirExists dirFiles listing st).bulkInstall = false
    ∧ (mainRoute il ol dirExists dirFiles listing st).tipModelIm = true
    ∧ (mainRoute il ol dirExists dirFiles listing st).exitCode = some 1 := by
  rw [mainRoute, hdet]
  simp only
  rw [if_neg (by simp [hmem])]
  have hie2 : (get_installed_languages st).1.1.isEmpty = false := by
    cases h : (get_installed_languages st).1.1.isEmpty
    · rfl
    · exact absurd (List.isEmpty_iff.mp h) hne
  rw [hie2]
  simp only [Bool.false_eq_true, if_false]
  rw [mainRouteResolve]
  have h2 : (get_installed_languages (get_installed_languages st).2).2 =
      (get_installed_languages st).2 := by
    rw [get_installed_idem]
  have hmiss2 : lookup (il ++ '_' :: ol)
      (get_installed_languages st).2.langCache = none := by
    rw [get_installed_snd_langCache]; exact hmiss
  have hni2 : il ∉ (get_installed_languages (get_installed_languages st).2).1.1 := by
    rw [get_installed_idem]; exact hni
  have hft := find_translation_not_installed il ol
    (get_installed_languages st).2 hmiss2 hni2
  rw [h2, hft]
  simp [hdet, hmem]

/-- C7: in the translation route, the bulk install of all local models is
triggered iff the validated request sees an empty installed-language set;
a pair that is available on disk but whose input language is not installed
(with the installed set non-empty) does not trigger the bulk install — the
route instead prints the install-from-index `[TIP]` and exits with status 1. -/
theorem route_bulk_install_trigger (il ol : Code) (dirExists : Bool)
    (dirFiles : List (List Char)) (listing : List (List Char × Package)) (st : St) :
    ((mainRoute il ol dirExists dirFiles listing st).bulkInstall = true ↔
      ((∃ avail, detect_available_languages dirExists dirFiles = .ok avail
          ∧ (il, ol) ∈ avail)
        ∧ (get_installed_languages st).1.1 = []))
    ∧ (∀ avail, detect_available_languages dirExists dirFiles = .ok avail →
        (il, ol) ∈ avail →
        (get_installed_languages st).1.1 ≠ [] →
        il ∉ (get_installed_languages st).1.1 →
        lookup (il ++ '_' :: ol) st.langCache = none →
        (mainRoute il ol dirExists dirFiles listing st).bulkInstall = false
        ∧ (mainRoute il ol dirExists dirFiles listing st).tipModelIm = true
        ∧ (mainRoute il ol dirExists dirFiles listing st).exitCode = some 1) :=
  ⟨route_bulk_iff_aux il ol dirExists dirFiles listing st,
   fun avail hdet hmem hne hni hmiss =>
     route_tip_aux il ol dirExists dirFiles listing st avail hdet hmem hne hni hmiss⟩


/-- C7 witness: store holds only `translate-en_sk-1_0.argosmodel` (so the
derived available pair is `(sk, en)`), German is installed but `sk` is not:
no bulk install, the `-im` tip is printed, exit status 1. -/
theorem route_bulk_install_trigger_witness :
    (mainRoute (chars "sk") (chars "en") true
        [chars "translate-en_sk-1_0.argosmodel"] [] ⟨[chars "de"], [], none, []⟩).bulkInstall
      = false
    ∧ (mainRoute (chars "sk") (chars "en") true
        [chars "translate-en_sk-1_0.argosmodel"] [] ⟨[chars "de"], [], none, []⟩).tipModelIm
      = true
    ∧ (mainRoute (chars "sk") (chars "en") true
        [chars "translate-en_sk-1_0.argosmodel"] [] ⟨[chars "de"], [], none, []⟩).exitCode
      = some 1 :=
  (route_bulk_install_trigger (chars "sk") (chars "en") true
      [chars "translate-en_sk-1_0.argosmodel"] [] ⟨[chars "de"], [], none, []⟩).2
    [(chars "sk", chars "en")] (by rfl) (by decide) (by decide) (by decide) (by rfl)

end UOT
